import Mathlib

/-
A Lean 4 model of the `flagx` command-line library (henrylee2cn/flagx):
the extended flag set (named flags, positional "non-flag" entries, the `--`
terminator, the "ignore undefined named flags" pre-scan) and the command
tree with its filter-chain dispatcher (`App.Exec`, `App.route`,
`Command.findFiltersAndAction`, `Command.newFilters`, `Command.newAction`).

Conventions of the embedding:
* Go strings are `String`, argument vectors are `List String`.
* Go maps are association lists; `List.lookup` returns the most recently
  inserted binding because insertion conses to the front.
* Go `panic`/`os.Exit` in `FlagSet.Parse` are the explicit outcome type
  `POut`; panics crossing the dispatch boundary are `Except Status`.
* Flag value cells are modelled as textual cells (the string value adapter);
  boolean named flags additionally check the standard boolean atoms.
* Functions whose source file is not part of the examined sources
  (`SplitArgs`, `NextArgs`, the struct-tag binder, the conventional base
  flag scanner of the standard `flag` package) are modelled from the
  specification; each such definition says so in its doc comment.
-/

namespace Flagx

/-! ## Error handling constants (flag.ErrorHandling and the flagx extension) -/

def ContinueOnError : Nat := 0

def ExitOnError : Nat := 1

def PanicOnError : Nat := 2

def ContinueOnUndefined : Nat := 2 ^ 30

/-- `cleanBit eh bit` models `eh &^ bit` together with the "was the bit set"
test from `cleanBit` in the source: it returns the error-handling value with
`bit` cleared, and whether clearing changed anything. -/
def cleanBit (eh bit : Nat) : Nat × Bool :=
  let eh2 := eh - (eh &&& bit)
  (eh2, eh2 != eh)

/-! ## tidyOneArg: the token grammar of one flag-shaped argument -/

/-- Result record of `tidyOneArg` (the Go function returns this 6-tuple). -/
structure TidyOne where
  lastArgs : List String
  terminated : Bool
  name : String
  valuePtr : Option String
  seen : Bool
  err : Option String
deriving DecidableEq, Repr

/-- Finds the position of the first `=` in `name` at index `1` or later
("equals cannot be first"), returning the split name and the inline value. -/
def splitEq (name : String) : String × Option String :=
  match (name.toList.drop 1).findIdx? (· == '=') with
  | some j => (String.mk (name.toList.take (j + 1)), some (String.mk (name.toList.drop (j + 2))))
  | none => (name, none)

/-- Model of `tidyOneArg` (the token grammar): classifies the head of `args`
as non-flag, terminator, malformed flag, or flag with an optional value taken
inline after `=` or from the following token when that token does not itself
start with `-`. -/
def tidyOneArg : List String → TidyOne
  | [] => ⟨[], false, "", none, false, none⟩
  | s :: rest =>
    if s.length < 2 ∨ s.toList.head? ≠ some '-' then
      ⟨s :: rest, false, "", none, false, none⟩
    else if s = "--" then
      ⟨rest, true, "", none, false, none⟩
    else
      let numMinuses := if s.toList.get? 1 = some '-' then 2 else 1
      let name0 := s.drop numMinuses
      if name0.length = 0 ∨ name0.toList.head? = some '-' ∨ name0.toList.head? = some '=' then
        ⟨s :: rest, false, name0, none, false, some ("bad flag syntax: " ++ s)⟩
      else
        match splitEq name0 with
        | (name1, some v) => ⟨rest, false, name1, some v, true, none⟩
        | (name1, none) =>
          match rest with
          | [] => ⟨[], false, name1, none, true, none⟩
          | mv :: rest2 =>
            if mv.length = 0 ∨ mv.toList.head? ≠ some '-' then
              ⟨rest2, false, name1, some mv, true, none⟩
            else
              ⟨mv :: rest2, false, name1, none, true, none⟩

/-! ## filterArgs / tidyArgs: the "ignore undefined named flags" pre-scan -/

/-- Result record of `filterArgs`, with the folded filter state `st`
(the Go version threads this state through the closure passed to it). -/
structure FilterOut (σ : Type) where
  st : σ
  lastArgs : List String
  terminated : Bool
  err : Option String

/-- Model of the loop body of `filterArgs`: repeatedly `tidyOneArg` the
argument list, feeding each seen flag to `flt`, stopping when no flag is seen
or the filter says stop.  `fuel` bounds the iteration count; every iteration
that recurses consumes at least one token, so any `fuel > args.length`
is never exhausted. -/
def filterArgsAux {σ : Type} (flt : σ → String → Option String → σ × Bool) :
    Nat → σ → List String → FilterOut σ
  | 0, st, lastArgs => ⟨st, lastArgs, false, none⟩
  | fuel + 1, st, lastArgs =>
    let r := tidyOneArg lastArgs
    if r.seen = false then
      ⟨st, r.lastArgs, r.terminated, r.err⟩
    else
      let (st', next) := flt st r.name r.valuePtr
      if next = false then
        ⟨st', r.lastArgs, r.terminated, r.err⟩
      else
        filterArgsAux flt fuel st' r.lastArgs

/-- Model of `filterArgs` itself (the loop with sufficient fuel). -/
def filterArgs {σ : Type} (args : List String)
    (flt : σ → String → Option String → σ × Bool) (st0 : σ) : FilterOut σ :=
  filterArgsAux flt (args.length + 1) st0 args

/-- Result record of `tidyArgs`. -/
structure TidyRes where
  tidied : List String
  lastArgs : List String
  terminated : Bool
  err : Option String
deriving DecidableEq, Repr

/-- Model of `tidyArgs`: scans flags off the front of `args`, re-emitting
each flag the predicate `filter` wants (as `-name` or `-name value`) into the
front-loaded `tidied` list, and stopping at the first token that is not a
flag (or at the terminator). -/
def tidyArgs (args : List String) (filter : String → Bool × Bool) : TidyRes :=
  let r := filterArgs (σ := List String) args
    (fun acc name valuePtr =>
      let (want, next) := filter name
      let acc' := if want then
          (match valuePtr with
           | none => acc ++ ["-" ++ name]
           | some v => acc ++ ["-" ++ name, v])
        else acc
      (acc', next))
    []
  ⟨r.st, r.lastArgs, r.terminated, r.err⟩

/-! ## The conventional base flag scanner (the inherited `flag.FlagSet`) -/

/-- Error of the base scanner: `ErrHelp` or a formatted failure. -/
inductive BaseErr where
  | help
  | failf (msg : String)
deriving DecidableEq, Repr

/-- A named flag of the base table; its value cell is textual, with a
boolean-like marker deciding the valueless `-name` convention. -/
structure BFlag where
  isBool : Bool
deriving DecidableEq, Repr

/-- Result of the base scanner: bound named flags and the remaining
arguments (everything from the first non-flag token, or after `--`). -/
structure BaseOut where
  actual : List (String × String)
  args : List String
deriving DecidableEq, Repr

/-- The textual atoms accepted by the boolean value parser. -/
def boolValueOk (v : String) : Bool :=
  v ∈ ["1", "t", "T", "true", "TRUE", "True", "0", "f", "F", "false", "FALSE", "False"]

/-- Modelled from the spec: one step plus loop of the conventional named-flag
scanner that the extended flag set delegates to (the standard `flag` package,
an external collaborator whose source is not among the examined files).  The
token grammar is the one the spec fixes: a token is a flag if it starts with
`-` and has length at least 2; a second `-` widens the prefix; a bare `--`
terminates; an inline value follows `=`; otherwise a non-boolean flag consumes
the following token as its value. -/
def baseParseAux (formal : List (String × BFlag)) :
    Nat → List (String × String) → List String → Except BaseErr BaseOut
  | 0, actual, args => .ok ⟨actual, args⟩
  | fuel + 1, actual, args =>
    match args with
    | [] => .ok ⟨actual, []⟩
    | s :: rest =>
      if s.length < 2 ∨ s.toList.head? ≠ some '-' then
        .ok ⟨actual, s :: rest⟩
      else if s = "--" then
        .ok ⟨actual, rest⟩
      else
        let numMinuses := if s.toList.get? 1 = some '-' then 2 else 1
        let name0 := s.drop numMinuses
        if name0.length = 0 ∨ name0.toList.head? = some '-' ∨ name0.toList.head? = some '=' then
          .error (.failf ("bad flag syntax: " ++ s))
        else
          let (name1, inline) := splitEq name0
          match formal.lookup name1 with
          | none =>
            if name1 = "help" ∨ name1 = "h" then .error .help
            else .error (.failf ("flag provided but not defined: -" ++ name1))
          | some bf =>
            if bf.isBool then
              match inline with
              | some v =>
                if boolValueOk v then baseParseAux formal fuel ((name1, v) :: actual) rest
                else .error (.failf ("invalid boolean value " ++ v ++ " for -" ++ name1))
              | none => baseParseAux formal fuel ((name1, "true") :: actual) rest
            else
              match inline with
              | some v => baseParseAux formal fuel ((name1, v) :: actual) rest
              | none =>
                match rest with
                | v :: rest2 => baseParseAux formal fuel ((name1, v) :: actual) rest2
                | [] => .error (.failf ("flag needs an argument: -" ++ name1))

/-- Outcome of a parse under an error-handling policy: a returned error, a
process exit with the given code, or a panic carrying a message. -/
inductive POut where
  | errRet (msg : String)
  | exited (code : Nat)
  | panicked (msg : String)
deriving DecidableEq, Repr

/-- Rendering of a base error as its message text. -/
def baseErrMsg : BaseErr → String
  | .help => "flag: help requested"
  | .failf m => m

/-- Modelled from the spec: the base scanner's `Parse`, applying its
error-handling policy (return the error, exit the process — with code 0 for
the help error — or panic). -/
def baseParse (formal : List (String × BFlag)) (cleanEh : Nat) (args : List String) :
    Except POut BaseOut :=
  match baseParseAux formal (args.length + 1) [] args with
  | .ok r => .ok r
  | .error e =>
    match cleanEh with
    | 0 => .error (.errRet (baseErrMsg e))
    | 1 => .error (.exited (if e = .help then 0 else 2))
    | 2 => .error (.panicked (baseErrMsg e))
    | _ => .error (.errRet (baseErrMsg e))

/-! ## The extended FlagSet -/

/-- The state of one positional ("non-flag") entry, mirroring `Flag`:
name, usage, textual value cell, default rendered as text. -/
structure NFlag where
  name : String
  usage : String
  value : String
  defValue : String
deriving DecidableEq, Repr

/-- The extended flag set: the base named-flag table plus the positional
tables (`nonFormal` declared, `nonActual` bound during parsing), the raw
error-handling value, the "ignore undefined named flags" bit, the
"terminator seen" bit, and the base scanner's bound flags and remaining
arguments after a parse. -/
structure FlagSet where
  name : String
  errorHandling : Nat
  baseErrorHandling : Nat
  isContinueOnUndefined : Bool
  terminated : Bool
  formal : List (String × BFlag)
  actualNamed : List (String × String)
  nonFormal : List (Int × NFlag)
  nonActual : List (Int × NFlag)
  args : List String
deriving Repr

/-- Model of `NewFlagSet`/`Init`: stores the raw error-handling value, and
hands the value with the `ContinueOnUndefined` bit cleared to the base set. -/
def NewFlagSet (name : String) (errorHandling : Nat) : FlagSet :=
  let (clean, cou) := cleanBit errorHandling ContinueOnUndefined
  { name := name
    errorHandling := errorHandling
    baseErrorHandling := clean
    isContinueOnUndefined := cou
    terminated := false
    formal := []
    actualNamed := []
    nonFormal := []
    nonActual := []
    args := [] }

/-- Modelled from the spec: registration of one named flag on the base table
(the `Var` primitive of the conventional flag package, an external
collaborator); the boolean-like marker drives the valueless convention. -/
def defineFlag (f : FlagSet) (name : String) (isBool : Bool) : FlagSet :=
  { f with formal := (name, ⟨isBool⟩) :: f.formal }

/-- Modelled from the spec: the tag key marking the positional (index) form of
the struct-tag grammar; its exact spelling lives in a source file not among
the examined ones and only feeds display names. -/
def tagKeyNonFlag : String := "?"

/-- Model of `getNonFlagName`: display name of the positional at `index`. -/
def getNonFlagName (index : Int) : String :=
  tagKeyNonFlag ++ toString index

/-- Model of `NonVar`: registers a positional entry at `index`.  It faults
(an `Except.error`, the Go `panic`) when the index is negative or already
registered; otherwise it records the entry in the formal table. -/
def NonVar (f : FlagSet) (value : String) (index : Int) (usage : String) :
    Except String FlagSet :=
  if index < 0 then
    .error "@index is not a valid slice index"
  else
    let name := getNonFlagName index
    match f.nonFormal.lookup index with
    | some _ =>
      .error (if f.name = "" then "flag redefined: " ++ name
              else f.name ++ " flag redefined: " ++ name)
    | none =>
      .ok { f with nonFormal := (index, ⟨name, usage, value, value⟩) :: f.nonFormal }

/-- Modelled from the spec: `SplitArgs` (its defining file is not among the
examined sources; `Parse` and the command router call it) strips a leading
program/command-name token when one is present, i.e. when the first token is
non-empty and does not start with `-`; otherwise it leaves the list alone. -/
def SplitArgs : List String → String × List String
  | [] => ("", [])
  | a :: rest =>
    if a.length > 0 ∧ a.toList.head? ≠ some '-' then (a, rest) else ("", a :: rest)

/-- Overwrites the value cell of the positional registered at `k`. -/
def updNonFormal (l : List (Int × NFlag)) (k : Int) (fl : NFlag) : List (Int × NFlag) :=
  l.map (fun p => if p.1 = k then (k, fl) else p)

/-- Model of `parseOneNonFlag`: binding one candidate positional token.
Returns (seen, error, updated set): an error on a bare `--` ("non-flag
defined but not provided"), not-seen without error when no entry is declared
at the index, and a successful bind (recorded into `nonActual`) otherwise. -/
def parseOneNonFlag (f : FlagSet) (index : Nat) (value : String) :
    Bool × Option String × FlagSet :=
  if value = "--" then
    (false, some ("non-flag defined but not provided: " ++ toString index), f)
  else
    match f.nonFormal.lookup (index : Int) with
    | none => (false, none, f)
    | some fl =>
      let fl' := { fl with value := value }
      (true, none,
        { f with
          nonFormal := updNonFormal f.nonFormal (index : Int) fl'
          nonActual := ((index : Int), fl') :: f.nonActual })

/-- Model of the positional loop at the end of `FlagSet.Parse`: walk the
remaining tokens as a 0-indexed list, binding declared indices, breaking at
the first index with no declaration, and applying the (cleaned)
error-handling policy to bind errors; a policy value outside the three known
ones falls through the `switch` and the loop continues. -/
def FlagSet.posLoop : FlagSet → Nat → List String → Except POut FlagSet
  | f, _, [] => .ok f
  | f, k, v :: rest =>
    let (seen, errOpt, f') := parseOneNonFlag f k v
    if seen then
      f'.posLoop (k + 1) rest
    else
      match errOpt with
      | none => .ok f'
      | some e =>
        match f'.baseErrorHandling with
        | 0 => .error (.errRet e)
        | 1 => .error (.exited 2)
        | 2 => .error (.panicked e)
        | _ => f'.posLoop (k + 1) rest

/-- Model of `FlagSet.Parse`: strip a leading command-name token; when
"ignore undefined named flags" is on, pre-scan with `tidyArgs` and reassemble
as recognized flags, then `--` if a terminator was seen, then the remainder;
delegate to the base scanner; if terminated, stop; in strict mode, detect a
terminator just before the base remainder; otherwise run the positional
loop. -/
def FlagSet.Parse (f : FlagSet) (argumentsIn : List String) : Except POut FlagSet :=
  let arguments := (SplitArgs argumentsIn).2
  let pre : Except POut (List String × FlagSet) :=
    if f.isContinueOnUndefined then
      let t := tidyArgs arguments (fun name => ((f.formal.lookup name).isSome, true))
      match t.err with
      | some e => .error (.errRet e)
      | none =>
        .ok (t.tidied ++ (if t.terminated then ["--"] else []) ++ t.lastArgs,
             { f with terminated := t.terminated })
    else
      .ok (arguments, f)
  match pre with
  | .error e => .error e
  | .ok (arguments, f) =>
    match baseParse f.formal f.baseErrorHandling arguments with
    | .error e => .error e
    | .ok r =>
      let f := { f with actualNamed := r.actual, args := r.args }
      if f.terminated then
        .ok f
      else
        let args := f.args
        if f.isContinueOnUndefined = false ∧ args = [] then
          .ok f
        else
          let i0 := arguments.length - args.length
          let i := if i0 > 0 then i0 - 1 else i0
          if f.isContinueOnUndefined = false ∧ arguments.getD i "" = "--" then
            .ok { f with terminated := true }
          else
            f.posLoop 0 args

/-- Model of `SubArgs`: once terminated, everything the base scanner left;
otherwise everything after the first `--` among the remaining arguments, or
nothing when there is none. -/
def FlagSet.SubArgs (f : FlagSet) : List String :=
  if f.terminated then f.args
  else
    match f.args.findIdx? (· == "--") with
    | some idx => f.args.drop (idx + 1)
    | none => []

/-- Helper for `NextArgs`: drops the leading run of remaining tokens whose
indices were bound as positionals. -/
def dropBoundPrefix (bound : List (Int × NFlag)) : Nat → List String → List String
  | _, [] => []
  | k, v :: rest =>
    if (bound.lookup (k : Int)).isSome then dropBoundPrefix bound (k + 1) rest
    else v :: rest

/-- Modelled from the spec: `NextArgs` (its defining file is not among the
examined sources) returns whatever argument tail was not consumed as a
positional, used by the dispatcher to delegate to a nested parse; once
terminated no positional binding was attempted, so everything remains. -/
def FlagSet.NextArgs (f : FlagSet) : List String :=
  if f.terminated then f.args
  else dropBoundPrefix f.nonActual 0 f.args

/-! ## Status values and the dispatch layer -/

def StatusBadArgs : Int := 1

def StatusNotFound : Int := 2

def StatusParseFailed : Int := 3

def StatusValidateFailed : Int := 4

/-- The structured result crossing the dispatch boundary: code, message,
cause (code 0 means success).  Stack capture is presentation and is not
modelled. -/
structure Status where
  code : Int
  msg : String
  cause : String
deriving DecidableEq, Repr

/-- The success status (`Exec` with no fault leaves the caught status nil,
observed by callers as code 0). -/
def okStatus : Status := ⟨0, "", ""⟩

/-- Observable side effects of handlers: filter entry, filter exit, action
ran.  The `id` tags which registered handler produced the event. -/
inductive Event where
  | fentry (id : Nat)
  | fexit (id : Nat)
  | acted (id : Nat)
deriving DecidableEq, Repr

/-- The per-invocation context: the original argument slice and the resolved
command path. -/
structure Ctx where
  args : List String
  cmdPath : List String
deriving DecidableEq, Repr

/-- An action handler: runs on a context, emitting its event trace, or
panics with a `Status` (the `ThrowStatus`/`CheckStatus` convention). -/
def ActionFunc : Type := Ctx → Except Status (List Event)

/-- A filter handler: receives the context and the next handler, and decides
whether/when to invoke it. -/
def FilterFunc : Type := Ctx → ActionFunc → Except Status (List Event)

/-- Model of the wrapping loop in `App.route`: iterating the collected
filters from the last down to the first, so `filters[0]` becomes the
outermost layer of the onion. -/
def wrapFilters (filters : List FilterFunc) (act : ActionFunc) : ActionFunc :=
  filters.foldr (fun flt next => fun c => flt c next) act

/-! ## Option-struct store

Per-invocation option structs live in an explicit store so that the frame
property of `Exec` (prototype objects registered in the command tree are
never written) is a statement, not a convention.  A struct value is its
field map (field name to textual value). -/

/-- The store of option-struct values; an address is an index into `cells`. -/
structure Heap where
  cells : List (List (String × String))
deriving DecidableEq, Repr

/-- Allocates a fresh cell (the `DeepCopy` of a registered factory),
returning the new store and the fresh address. -/
def Heap.alloc (h : Heap) (v : List (String × String)) : Heap × Nat :=
  (⟨h.cells ++ [v]⟩, h.cells.length)

/-- Writes the cell at `a` (binding parsed flag values onto the copy). -/
def Heap.write (h : Heap) (a : Nat) (v : List (String × String)) : Heap :=
  ⟨h.cells.set a v⟩

/-- The zero value of one field (what `reflect.New` yields). -/
def zeroStr (b : BFlag) : String := if b.isBool then "false" else ""

/-- The zero-initialized copy of an option struct described by `defines`. -/
def zeroObj (defines : List (String × BFlag)) : List (String × String) :=
  defines.map (fun p => (p.1, zeroStr p.2))

/-- The option struct after a parse: every field holds its bound value when
the scanner set it, and its zero value otherwise. -/
def bindObj (defines : List (String × BFlag)) (actual : List (String × String)) :
    List (String × String) :=
  defines.map (fun p => (p.1, (actual.lookup p.1).getD (zeroStr p.2)))

/-- Modelled from the spec: `StructVars` walks the struct fields once and
registers each tagged field as a named flag on the set; `defines` is the
declarative (field, kind) list the reflection pass produces from the tags. -/
def StructVars (f : FlagSet) (defines : List (String × BFlag)) : FlagSet :=
  { f with formal := f.formal ++ defines }

/-- The flag set a dispatch step builds for a struct-backed binding:
`NewFlagSet(cmdName, stored ErrorHandling)` where registration always stored
`ContinueOnError | ContinueOnUndefined`, with the struct fields registered. -/
def dispatchFlagSet (cmdName : String) (defines : List (String × BFlag)) : FlagSet :=
  StructVars (NewFlagSet cmdName (ContinueOnError ||| ContinueOnUndefined)) defines

/-- A registered filter binding: a bare function, or a struct-backed binding
holding the tag-derived field list, the address of the registered prototype
object, and the user behavior of the parsed copy. -/
inductive FilterSpec where
  | funcF (f : FilterFunc)
  | structF (defines : List (String × BFlag)) (protoAddr : Nat)
      (behavior : List (String × String) → FilterFunc)

/-- A registered action binding, symmetric to `FilterSpec`. -/
inductive ActionSpec where
  | funcA (f : ActionFunc)
  | structA (defines : List (String × BFlag)) (protoAddr : Nat)
      (behavior : List (String × String) → ActionFunc)

/-- A command: name, filters in registration order, at most one action, and
the named subcommands. -/
inductive Command where
  | mk (cmdName : String) (filters : List FilterSpec) (action : Option ActionSpec)
      (subs : List (String × Command))

/-- The command's name. -/
def Command.cmdName : Command → String
  | .mk n _ _ _ => n

/-- The command's filters, in registration order. -/
def Command.filters : Command → List FilterSpec
  | .mk _ fs _ _ => fs

/-- The command's action, when set. -/
def Command.action : Command → Option ActionSpec
  | .mk _ _ a _ => a

/-- The command's subcommand table. -/
def Command.subs : Command → List (String × Command)
  | .mk _ _ _ s => s

/-- The validator hook applied to each populated option struct. -/
def Validator : Type := List (String × String) → Option String

/-- The application: root command, command name, the optional not-found
handler, the optional validator hook. -/
structure App where
  cmdName : String
  root : Command
  notFound : Option ActionFunc
  validator : Option Validator

/-- Conversion of a parse outcome that crosses the dispatch boundary: a
returned error goes through `CheckStatus` with the given code; a panic or a
process exit would bypass it (both are unreachable for dispatch-built flag
sets, whose cleaned policy is `ContinueOnError`). -/
def statusOfPOut (code : Int) : POut → Status
  | .errRet e => ⟨code, "", e⟩
  | .panicked e => ⟨-1, "", e⟩
  | .exited c => ⟨-2, "os.Exit", toString c⟩

/-- Model of the loop body of `Command.newFilters`: `arguments` is the
original list every struct-backed filter parses; `args` narrows to the
shortest `NextArgs` seen so far; each struct-backed filter allocates a fresh
copy, binds the parsed values onto it, and offers the populated copy to the
validator. -/
def newFiltersGo (validator : Option Validator) (cmdName : String)
    (arguments : List String) :
    Heap → List FilterFunc → List String → List FilterSpec →
    Heap × Except Status (List FilterFunc × List String)
  | h, r, args, [] => (h, .ok (r, args))
  | h, r, args, .funcF f :: rest =>
    newFiltersGo validator cmdName arguments h (r ++ [f]) args rest
  | h, r, args, .structF defines _protoAddr behavior :: rest =>
    let (h1, addr) := h.alloc (zeroObj defines)
    let fs0 := dispatchFlagSet cmdName defines
    match fs0.Parse arguments with
    | .error p => (h1, .error (statusOfPOut StatusParseFailed p))
    | .ok fs1 =>
      let newObjV := bindObj defines fs1.actualNamed
      let h2 := h1.write addr newObjV
      let verr := match validator with
        | some vd => vd newObjV
        | none => none
      match verr with
      | some e => (h2, .error ⟨StatusValidateFailed, "", e⟩)
      | none =>
        let nargs := fs1.NextArgs
        let args' := if args.length > nargs.length then nargs else args
        newFiltersGo validator cmdName arguments h2 (r ++ [behavior newObjV]) args' rest

/-- Model of `Command.newFilters`. -/
def Command.newFilters (c : Command) (validator : Option Validator) (h : Heap)
    (arguments : List String) :
    Heap × Except Status (List FilterFunc × List String) :=
  newFiltersGo validator c.cmdName arguments h [] arguments c.filters

/-- Model of `Command.newAction`: no action, a bare function action (the
command-name token is stripped, and the rest is returned), or a struct-backed
action parsed like a struct-backed filter. -/
def Command.newAction (c : Command) (validator : Option Validator) (h : Heap)
    (cmdline : List String) :
    Heap × Except Status (Option (ActionFunc × List String)) :=
  match c.action with
  | none => (h, .ok none)
  | some (.funcA f) => (h, .ok (some (f, (SplitArgs cmdline).2)))
  | some (.structA defines _protoAddr behavior) =>
    let (h1, addr) := h.alloc (zeroObj defines)
    let fs0 := dispatchFlagSet c.cmdName defines
    match fs0.Parse cmdline with
    | .error p => (h1, .error (statusOfPOut StatusParseFailed p))
    | .ok fs1 =>
      let newObjV := bindObj defines fs1.actualNamed
      let h2 := h1.write addr newObjV
      let verr := match validator with
        | some vd => vd newObjV
        | none => none
      match verr with
      | some e => (h2, .error ⟨StatusValidateFailed, "", e⟩)
      | none => (h2, .ok (some (behavior newObjV, fs1.NextArgs)))

/-- Model of `Command.findFiltersAndAction`: build this level's filters,
try this level's action, else consume the next bare token as a subcommand
name and recurse; an unmatched name targets the not-found handler (found =
false, filters discarded) or throws a `StatusNotFound` status.  `fuel`
bounds the recursion depth; each recursive step consumes the subcommand-name
token, so any `fuel > arguments.length` is never exhausted. -/
def Command.findFiltersAndAction (notFound : Option ActionFunc)
    (validator : Option Validator) :
    Nat → Heap → Command → List String → List String →
    Heap × Except Status (List FilterFunc × ActionFunc × List String × Bool)
  | 0, h, _, _, _ => (h, .error ⟨-3, "model recursion fuel exhausted", ""⟩)
  | fuel + 1, h, c, cmdPath, arguments =>
    match c.newFilters validator h arguments with
    | (h1, .error st) => (h1, .error st)
    | (h1, .ok (filters, arguments1)) =>
      match c.newAction validator h1 arguments1 with
      | (h2, .error st) => (h2, .error st)
      | (h2, .ok (some (action, _restArgs))) => (h2, .ok (filters, action, cmdPath, true))
      | (h2, .ok none) =>
        let (subCmdName, arguments2) := SplitArgs arguments1
        let cmdPath1 := if subCmdName ≠ "" then cmdPath ++ [subCmdName] else cmdPath
        match c.subs.lookup subCmdName with
        | none =>
          match notFound with
          | some nf => (h2, .ok ([], nf, cmdPath1, false))
          | none =>
            (h2, .error ⟨StatusNotFound, "",
              "not found command action: " ++ String.intercalate " " cmdPath1⟩)
        | some subCmd =>
          match Command.findFiltersAndAction notFound validator fuel h2 subCmd cmdPath1 arguments2 with
          | (h3, .error st) => (h3, .error st)
          | (h3, .ok (subFilters, action, cmdPath2, true)) =>
            (h3, .ok (filters ++ subFilters, action, cmdPath2, true))
          | (h3, .ok (_, action, cmdPath2, false)) => (h3, .ok ([], action, cmdPath2, false))

/-- Model of `App.route`: resolve, then wrap the action in the collected
filters (outermost first) only when resolution succeeded; the context always
carries the original, unmodified argument list. -/
def App.route (a : App) (fuel : Nat) (h : Heap) (arguments : List String) :
    Heap × Except Status (ActionFunc × Ctx) :=
  match Command.findFiltersAndAction a.notFound a.validator fuel h a.root [a.cmdName] arguments with
  | (h1, .error st) => (h1, .error st)
  | (h1, .ok (filters, action, cmdPath, found)) =>
    let actionFunc := if found then wrapFilters filters action else action
    (h1, .ok (actionFunc, ⟨arguments, cmdPath⟩))

/-- Model of `App.Exec`: route, run the handler once, and convert any fault
(from parsing, validation, routing, or the handler itself) into the returned
status; with no fault the caught status stays nil, i.e. success. -/
def App.Exec (a : App) (fuel : Nat) (h : Heap) (arguments : List String) :
    Status × List Event × Heap :=
  match a.route fuel h arguments with
  | (h1, .error st) => (st, [], h1)
  | (h1, .ok (handle, ctxObj)) =>
    match handle ctxObj with
    | .error st => (st, [], h1)
    | .ok tr => (okStatus, tr, h1)

/-! ## Registration-time state of one command

`AddSubcommand`, `SetAction` and `AddFilter` mutate one command's own
fields under its lock; every command starts as `newCommand` creates it (no
action, no subcommands).  This model captures that per-command lifecycle. -/

/-- The registration-relevant state of one command. -/
structure CmdReg where
  hasAction : Bool
  subNames : List String
  numFilters : Nat
deriving DecidableEq, Repr

/-- The state `newCommand` creates. -/
def newCommandReg : CmdReg := ⟨false, [], 0⟩

/-- One registration call on a command. -/
inductive RegOp where
  | addSubcommand (cmdName : String)
  | setAction
  | addFilter
deriving DecidableEq, Repr

/-- Model of the registration calls: `AddSubcommand` faults when an action
is already set (then on an empty or duplicate name); `SetAction` faults when
subcommands exist; `AddFilter` always succeeds. -/
def applyRegOp (c : CmdReg) : RegOp → Except String CmdReg
  | .addSubcommand cmdName =>
    if c.hasAction then .error "action has been set, no subcommand can be set"
    else if cmdName = "" then .error "command name is empty"
    else if cmdName ∈ c.subNames then .error ("action named " ++ cmdName ++ " already exists")
    else .ok { c with subNames := cmdName :: c.subNames }
  | .setAction =>
    if c.subNames ≠ [] then .error "some subcommands have been set, no action can be set"
    else .ok { c with hasAction := true }
  | .addFilter => .ok { c with numFilters := c.numFilters + 1 }

/-- A sequence of registration calls on one command, stopping at the first
fault. -/
def applyRegOps : CmdReg → List RegOp → Except String CmdReg
  | c, [] => .ok c
  | c, op :: ops =>
    match applyRegOp c op with
    | .error e => .error e
    | .ok c' => applyRegOps c' ops

/-! ## Store preservation -/

/-- `h2.Grows h1`: every cell that existed in `h1` is untouched in `h2`
(new cells may have been appended).  This is the frame property of a
dispatch step over the option-struct store. -/
def Heap.Grows (h2 h1 : Heap) : Prop :=
  h1.cells.length ≤ h2.cells.length ∧
    ∀ i, i < h1.cells.length → h2.cells[i]? = h1.cells[i]?

/-! ## Scenario definitions used by the theorems -/

/-- A flag set with positional entries declared only at indices 0 and 2
(defaults `d0`, `d2`, usages `u0`, `u2`), under the error-handling value
`eh`. -/
def posSet (eh : Nat) (d0 d2 u0 u2 : String) : Except String FlagSet := do
  let f := NewFlagSet "" eh
  let f ← NonVar f d0 0 u0
  NonVar f d2 2 u2

/-- Parses `args` with the two-positional flag set, keeping only a
successful outcome. -/
def posParse (eh : Nat) (d0 d2 u0 u2 : String) (args : List String) : Option FlagSet :=
  match posSet eh d0 d2 u0 u2 with
  | .ok f => (f.Parse args).toOption
  | .error _ => none

/-- The value bound at positional index `i` after `posParse` (outer `none`:
the parse failed; inner layer: the bound value, if any). -/
def posBound (eh : Nat) (d0 d2 u0 u2 : String) (args : List String) (i : Int) :
    Option (Option String) :=
  (posParse eh d0 d2 u0 u2 args).map (fun f => (f.nonActual.lookup i).map (·.value))

/-- The reassembly `FlagSet.Parse` performs after the pre-scan:
recognized flags, then the terminator if one was seen, then the remainder. -/
def reassemble (t : TidyRes) : List String :=
  t.tidied ++ (if t.terminated then ["--"] else []) ++ t.lastArgs

/-- A tolerant flag set defining only the named flag `a`. -/
def c2Set : FlagSet := defineFlag (NewFlagSet "" ContinueOnUndefined) "a" false

/-- The recognition predicate `Parse` hands to `tidyArgs` for `c2Set`. -/
def c2Pred (name : String) : Bool × Bool :=
  ((c2Set.formal.lookup name).isSome, true)

/-- A strict flag set with the named string flags `a` and `b`. -/
def c3Set : FlagSet := defineFlag (defineFlag (NewFlagSet "" ContinueOnError) "a" false) "b" false

/-- A tolerant flag set with the named string flags `a` and `b`. -/
def c3SetT : FlagSet :=
  defineFlag (defineFlag (NewFlagSet "" (ContinueOnError ||| ContinueOnUndefined)) "a" false) "b" false

/-- A filter that records its entry, runs the next handler, and records its
exit (the canonical well-behaved middleware used to observe ordering). -/
def mkTraceFilter (id : Nat) : FilterFunc :=
  fun c next =>
    match next c with
    | .ok tr => .ok (.fentry id :: tr ++ [.fexit id])
    | .error st => .error st

/-- An action that records that it ran. -/
def mkTraceAction (id : Nat) : ActionFunc := fun _ => .ok [.acted id]

/-- The command tree of the filter-ordering scenario: a root filter, the
subcommand `a` carrying another filter, and the sub-subcommand `a b`
carrying the action. -/
def c4Root (i j k : Nat) : Command :=
  .mk "" [.funcF (mkTraceFilter i)] none
    [("a", .mk "a" [.funcF (mkTraceFilter j)] none
        [("b", .mk "b" [] (some (.funcA (mkTraceAction k))) [])])]

/-- The app of the filter-ordering scenario. -/
def c4App (i j k : Nat) : App := ⟨"prog", c4Root i j k, none, none⟩

/-- A root command with the given subcommand table and nothing else. -/
def c5Root (name0 : String) (subs : List (String × Command)) : Command :=
  .mk name0 [] none subs

/-- The app of the unknown-command scenario, with an optional not-found
handler. -/
def c5App (name0 : String) (subs : List (String × Command)) (nf : Option ActionFunc) : App :=
  ⟨"prog", c5Root name0 subs, nf, none⟩

/-- The command tree of the not-found-bypasses-filters scenario: filters on
the root and on `a`, an action only at `a b`. -/
def c10Root (i j k : Nat) : Command :=
  .mk "" [.funcF (mkTraceFilter i)] none
    [("a", .mk "a" [.funcF (mkTraceFilter j)] none
        [("b", .mk "b" [] (some (.funcA (mkTraceAction k))) [])])]

/-- The app of the not-found-bypasses-filters scenario: a not-found handler
is configured. -/
def c10App (i j k n : Nat) : App := ⟨"prog", c10Root i j k, some (mkTraceAction n), none⟩

/-- An app whose root action throws the given status (a user handler
panicking through `ThrowStatus`). -/
def c8aApp (st : Status) : App :=
  ⟨"prog", .mk "" [] (some (.funcA (fun _ => .error st))) [], none, none⟩

/-- An app with a struct-backed root filter defining the flag `g`, whose
prototype lives at store address 0. -/
def c8bApp : App :=
  ⟨"prog", .mk "" [.structF [("g", ⟨false⟩)] 0 (fun _ => mkTraceFilter 1)] none [], none, none⟩

/-- The command tree of the fresh-copy scenario: a struct-backed root filter
over the flag `g` (prototype at store address 0) and the subcommand `a`
carrying an action. -/
def c9Root : Command :=
  .mk "" [.structF [("g", ⟨false⟩)] 0 (fun _obj => fun c next => next c)] none
    [("a", .mk "a" [] (some (.funcA (mkTraceAction 3))) [])]

/-- The app of the fresh-copy scenario. -/
def c9App : App := ⟨"prog", c9Root, none, none⟩

/-- The prototype option-struct value registered in the store for the
fresh-copy scenario. -/
def c9proto : List (String × String) := [("g", "proto")]

/-! ## Helper lemmas -/

/-- The token tidied off by `tidyOneArg` always leaves a suffix of the input
argument list. -/
theorem tidyOneArg_suffix (args : List String) : (tidyOneArg args).lastArgs <:+ args := by
  cases args with
  | nil => exact List.suffix_refl _
  | cons s rest =>
    simp only [tidyOneArg]
    repeat' split
    all_goals
      first
      | exact List.suffix_refl _
      | exact List.suffix_cons _ _
      | exact (List.suffix_cons _ _).trans (List.suffix_cons _ _)

/-- `tidyOneArg` reports a terminator exactly when the head token is `--`,
and then the rest is everything after it. -/
theorem tidyOneArg_terminated (args : List String) :
    (tidyOneArg args).terminated = true → args = "--" :: (tidyOneArg args).lastArgs := by
  cases args with
  | nil => intro h; simp [tidyOneArg] at h
  | cons s rest =>
    simp only [tidyOneArg]
    repeat' split
    all_goals intro h
    all_goals simp_all

/-- The pre-scan loop leaves a suffix of its input as the remainder, and
when it reports a terminator the remainder is exactly what followed a `--`
token of the input. -/
theorem filterArgsAux_spec {σ : Type} (flt : σ → String → Option String → σ × Bool) :
    ∀ (fuel : Nat) (st : σ) (args : List String),
      (filterArgsAux flt fuel st args).lastArgs <:+ args
      ∧ ((filterArgsAux flt fuel st args).terminated = true →
          ∃ pre, args = pre ++ "--" :: (filterArgsAux flt fuel st args).lastArgs) := by
  intro fuel
  induction fuel with
  | zero =>
    intro st args
    constructor
    · exact List.suffix_refl _
    · intro h
      simp [filterArgsAux] at h
  | succ n ih =>
    intro st args
    simp only [filterArgsAux]
    split
    · constructor
      · exact tidyOneArg_suffix args
      · intro h
        exact ⟨[], tidyOneArg_terminated args h⟩
    · split
      · constructor
        · exact tidyOneArg_suffix args
        · intro h
          exact ⟨[], tidyOneArg_terminated args h⟩
      · constructor
        · exact ((ih _ _).1).trans (tidyOneArg_suffix args)
        · intro h
          obtain ⟨pre', hpre'⟩ := (ih _ _).2 h
          obtain ⟨t, ht⟩ := tidyOneArg_suffix args
          refine ⟨t ++ pre', ?_⟩
          exact ht.symm.trans ((congrArg (fun l => t ++ l) hpre').trans
            (List.append_assoc t pre' _).symm)

/-- One successful registration call preserves the mutual-exclusion
invariant of a command (an action implies no subcommands). -/
theorem applyRegOp_inv (c c' : CmdReg) (op : RegOp)
    (h0 : c.hasAction = true → c.subNames = [])
    (h : applyRegOp c op = .ok c') : c'.hasAction = true → c'.subNames = [] := by
  cases op with
  | addSubcommand n =>
    simp only [applyRegOp] at h
    split at h
    · cases h
    · split at h
      · cases h
      · split at h
        · cases h
        · cases h
          intro hc
          rename_i hact _ _
          simp at hc
          simp [hc] at hact
  | setAction =>
    simp only [applyRegOp] at h
    split at h
    · cases h
    · cases h
      intro _
      simp_all
  | addFilter =>
    simp only [applyRegOp] at h
    cases h
    exact h0

/-- A successful sequence of registration calls preserves the
mutual-exclusion invariant of a command. -/
theorem applyRegOps_inv : ∀ (ops : List RegOp) (c0 c : CmdReg),
    (c0.hasAction = true → c0.subNames = []) →
    applyRegOps c0 ops = .ok c → (c.hasAction = true → c.subNames = []) := by
  intro ops
  induction ops with
  | nil =>
    intro c0 c h0 h
    cases h
    exact h0
  | cons op ops ih =>
    intro c0 c h0 h
    simp only [applyRegOps] at h
    cases hop : applyRegOp c0 op with
    | error e => rw [hop] at h; cases h
    | ok c1 =>
      rw [hop] at h
      exact ih c1 c (applyRegOp_inv c0 c1 op h0 hop) h

/-- Wrapping tracing filters around a tracing action produces the onion
trace: entries in list order, the action, exits in reverse order. -/
theorem wrap_trace (c : Ctx) (act : Nat) :
    ∀ (ids : List Nat),
      wrapFilters (ids.map mkTraceFilter) (mkTraceAction act) c
        = .ok ((ids.map Event.fentry) ++ Event.acted act :: (ids.reverse.map Event.fexit)) := by
  intro ids
  induction ids with
  | nil => rfl
  | cons i ids ih =>
    simp only [List.map_cons, wrapFilters, List.foldr_cons]
    show mkTraceFilter i c (wrapFilters (ids.map mkTraceFilter) (mkTraceAction act)) = _
    simp only [mkTraceFilter, ih]
    simp [List.reverse_cons]

/-- Store growth is reflexive. -/
theorem grows_refl (h : Heap) : h.Grows h :=
  ⟨le_refl _, fun _ _ => rfl⟩

/-- Store growth is transitive. -/
theorem grows_trans {h1 h2 h3 : Heap} (g32 : h3.Grows h2) (g21 : h2.Grows h1) :
    h3.Grows h1 :=
  ⟨g21.1.trans g32.1, fun i hi => (g32.2 i (lt_of_lt_of_le hi g21.1)).trans (g21.2 i hi)⟩

/-- Allocating a fresh cell grows the store. -/
theorem alloc_grows (h : Heap) (v : List (String × String)) :
    ((h.alloc v).1).Grows h := by
  constructor
  · simp [Heap.alloc]
  · intro i hi
    simp only [Heap.alloc]
    exact List.getElem?_append_left hi

/-- Allocating a fresh cell and then writing that very cell grows the
store: every pre-existing cell is untouched. -/
theorem allocWrite_grows (h : Heap) (v w : List (String × String)) :
    (((h.alloc v).1).write (h.alloc v).2 w).Grows h := by
  constructor
  · simp [Heap.alloc, Heap.write]
  · intro i hi
    simp only [Heap.alloc, Heap.write]
    rw [List.getElem?_set_ne (Nat.ne_of_gt hi)]
    exact List.getElem?_append_left hi

/-- The filter-building loop only allocates and writes fresh cells. -/
theorem newFiltersGo_grows (validator : Option Validator) (cmdName : String)
    (arguments : List String) :
    ∀ (fs : List FilterSpec) (h : Heap) (r : List FilterFunc) (args : List String),
      (newFiltersGo validator cmdName arguments h r args fs).1.Grows h := by
  intro fs
  induction fs with
  | nil => intro h r args; exact grows_refl h
  | cons spec rest ih =>
    intro h r args
    cases spec with
    | funcF f =>
      simp only [newFiltersGo]
      exact ih h (r ++ [f]) args
    | structF defines pa behavior =>
      simp only [newFiltersGo]
      split
      · exact alloc_grows h _
      · split
        · exact allocWrite_grows h _ _
        · exact grows_trans (ih _ _ _) (allocWrite_grows h _ _)

/-- `Command.newFilters` only allocates and writes fresh cells. -/
theorem newFilters_grows (c : Command) (validator : Option Validator) (h : Heap)
    (arguments : List String) :
    (c.newFilters validator h arguments).1.Grows h :=
  newFiltersGo_grows validator c.cmdName arguments c.filters h [] arguments

/-- `Command.newAction` only allocates and writes fresh cells. -/
theorem newAction_grows (c : Command) (validator : Option Validator) (h : Heap)
    (cmdline : List String) :
    (c.newAction validator h cmdline).1.Grows h := by
  cases hact : c.action with
  | none => simp only [Command.newAction, hact]; exact grows_refl h
  | some spec =>
    cases spec with
    | funcA f => simp only [Command.newAction, hact]; exact grows_refl h
    | structA defines pa behavior =>
      simp only [Command.newAction, hact]
      split
      · exact alloc_grows h _
      · split
        · exact allocWrite_grows h _ _
        · exact allocWrite_grows h _ _

/-- Route resolution only allocates and writes fresh cells. -/
theorem findFA_grows (nf : Option ActionFunc) (validator : Option Validator) :
    ∀ (fuel : Nat) (h : Heap) (c : Command) (cmdPath arguments : List String),
      (Command.findFiltersAndAction nf validator fuel h c cmdPath arguments).1.Grows h := by
  intro fuel
  induction fuel with
  | zero => intro h c cmdPath arguments; exact grows_refl h
  | succ n ih =>
    intro h c cmdPath arguments
    have g1 := newFilters_grows c validator h arguments
    rcases hnf : c.newFilters validator h arguments with ⟨h1, res1⟩
    rw [hnf] at g1
    simp only [Command.findFiltersAndAction, hnf]
    cases res1 with
    | error st => exact g1
    | ok pr =>
      obtain ⟨filters, arguments1⟩ := pr
      have g2 := newAction_grows c validator h1 arguments1
      rcases hna : c.newAction validator h1 arguments1 with ⟨h2, res2⟩
      rw [hna] at g2
      simp only [hna]
      cases res2 with
      | error st => exact grows_trans g2 g1
      | ok o =>
        cases o with
        | some pr2 =>
          obtain ⟨action, restArgs⟩ := pr2
          exact grows_trans g2 g1
        | none =>
          dsimp only
          cases hlk : c.subs.lookup (SplitArgs arguments1).1 with
          | none =>
            cases nf with
            | some nfh => exact grows_trans g2 g1
            | none => exact grows_trans g2 g1
          | some subCmd =>
            have g3 := ih h2 subCmd
              (if (SplitArgs arguments1).1 ≠ "" then cmdPath ++ [(SplitArgs arguments1).1] else cmdPath)
              (SplitArgs arguments1).2
            rcases hrec : Command.findFiltersAndAction nf validator n h2 subCmd
                (if (SplitArgs arguments1).1 ≠ "" then cmdPath ++ [(SplitArgs arguments1).1] else cmdPath)
                (SplitArgs arguments1).2 with ⟨h3, res3⟩
            rw [hrec] at g3
            simp only [hrec]
            cases res3 with
            | error st => exact grows_trans (grows_trans g3 g2) g1
            | ok q =>
              obtain ⟨subFilters, action, cmdPath2, found⟩ := q
              cases found with
              | false => exact grows_trans (grows_trans g3 g2) g1
              | true => exact grows_trans (grows_trans g3 g2) g1

/-! ## Claim theorems -/

/-- C1 (counterexample): with positional entries declared only at indices 0
and 2 and the tolerant (ignore-undefined) policy set, parsing does NOT bind
index 2: with the positional tokens `x y z` (after the program-name token is
stripped), index 2 stays unbound, contradicting "index 2 binds z"; and on
the literal list `x y z`, `x` itself is consumed as the program-name token,
so index 0 binds `y`, not `x`. -/
theorem C1_counterexample :
    posBound ContinueOnUndefined "" "" "u0" "u2" ["prog", "x", "y", "z"] 2 = some none
    ∧ posBound ContinueOnUndefined "" "" "u0" "u2" ["x", "y", "z"] 2 = some none
    ∧ posBound ContinueOnUndefined "" "" "u0" "u2" ["x", "y", "z"] 0 = some (some "y") :=
  ⟨rfl, rfl, rfl⟩

/-- C1 (amended): for every flag set with positional entries registered only
at indices 0 and 2 (any defaults and usages), parsing positional tokens
`x y z` binds `x` at index 0 and stops at the first unmatched index (1),
leaving index 2 unbound — in strict mode AND equally under the tolerant
(ignore-undefined) policy: the positional scan never continues past an
undeclared index. -/
theorem C1_theorem (d0 d2 u0 u2 : String) :
    (posBound ContinueOnError d0 d2 u0 u2 ["prog", "x", "y", "z"] 0 = some (some "x")
      ∧ posBound ContinueOnError d0 d2 u0 u2 ["prog", "x", "y", "z"] 1 = some none
      ∧ posBound ContinueOnError d0 d2 u0 u2 ["prog", "x", "y", "z"] 2 = some none)
    ∧ (posBound ContinueOnUndefined d0 d2 u0 u2 ["prog", "x", "y", "z"] 0 = some (some "x")
      ∧ posBound ContinueOnUndefined d0 d2 u0 u2 ["prog", "x", "y", "z"] 1 = some none
      ∧ posBound ContinueOnUndefined d0 d2 u0 u2 ["prog", "x", "y", "z"] 2 = some none) :=
  ⟨⟨rfl, rfl, rfl⟩, ⟨rfl, rfl, rfl⟩⟩

/-- C2 (counterexample): the "ignore undefined named flags" pre-scan does
not keep unrecognized flags: with only `a` defined, pre-scanning
`["-z", "x"]` drops both the unrecognized flag `-z` and the token `x` it
consumed as its value — they appear neither front-loaded nor in the
remainder, and a full `Parse` binds nothing and leaves no remaining
arguments, so tokens ARE lost. -/
theorem C2_counterexample :
    (tidyArgs ["-z", "x"] c2Pred = ⟨[], [], false, none⟩)
    ∧ (reassemble (tidyArgs ["-z", "x"] c2Pred) = [])
    ∧ ((c2Set.Parse ["-z", "x"]).toOption.map
        (fun f => (f.actualNamed, f.args, f.SubArgs, f.NextArgs))
      = some ([], [], [], [])) :=
  ⟨rfl, rfl, rfl⟩

/-- C2 (amended): for every argument list and recognition predicate, the
pre-scan front-loads the recognized defined flags (with their values), and
the kept remainder is a contiguous suffix of the original list — everything
from the first token not consumed during flag scanning; when a terminator
stopped the scan, the remainder is exactly what followed that `--` token.
Tokens of unrecognized flags consumed before that point are dropped, not
kept (see the counterexample), so the reassembled list
`recognized ++ [--]? ++ remainder` need not contain every original token. -/
theorem C2_theorem (args : List String) (p : String → Bool × Bool) :
    (tidyArgs args p).lastArgs <:+ args
    ∧ ((tidyArgs args p).terminated = true →
        ∃ pre, args = pre ++ "--" :: (tidyArgs args p).lastArgs) := by
  have h := filterArgsAux_spec (σ := List String)
    (fun acc name valuePtr =>
      let (want, next) := p name
      let acc' := if want then
          (match valuePtr with
           | none => acc ++ ["-" ++ name]
           | some v => acc ++ ["-" ++ name, v])
        else acc
      (acc', next))
    (args.length + 1) [] args
  exact h

/-- C2 (witness): the amended statement at the concrete input
`["-a", "1", "--", "x"]` with `a` recognized. -/
theorem C2_witness :
    (["x"] <:+ ["-a", "1", "--", "x"])
    ∧ ∃ pre, ["-a", "1", "--", "x"] = pre ++ "--" :: ["x"] := by
  have h := C2_theorem ["-a", "1", "--", "x"] (fun n => (n == "a", true))
  exact ⟨h.1, h.2 rfl⟩

/-- C3: with named flags `a` and `b` both defined (in the default strict
mode and in the tolerant mode alike), parsing
`["-a", "1", "--", "-b", "2"]` binds `a` to `1`, leaves `b` unbound, leaves
the set in terminated mode, and returns every token after `--` verbatim as
the remaining (subcommand) arguments. -/
theorem C3_theorem :
    ((c3Set.Parse ["-a", "1", "--", "-b", "2"]).toOption.map
        (fun f => (f.actualNamed.lookup "a", f.actualNamed.lookup "b", f.terminated, f.SubArgs))
      = some (some "1", none, true, ["-b", "2"]))
    ∧ ((c3SetT.Parse ["-a", "1", "--", "-b", "2"]).toOption.map
        (fun f => (f.actualNamed.lookup "a", f.actualNamed.lookup "b", f.terminated, f.SubArgs))
      = some (some "1", none, true, ["-b", "2"])) :=
  ⟨rfl, rfl⟩

/-- C4: with a filter F1 on the root, a filter F2 on subcommand `a`, and an
action on `a b`, executing `["a", "b", "-x", "1"]` resolves the deepest
command's action wrapped by the filters collected root-down, outermost
first: the observed order is F1-entry, F2-entry, action, F2-exit, F1-exit;
the resolved path is `prog a b` and the context carries the original
arguments; and in general wrapping any list of tracing filters yields
entries in registration order, then the action, then exits in reverse. -/
theorem C4_theorem (i j k : Nat) :
    ((c4App i j k).Exec 5 ⟨[]⟩ ["a", "b", "-x", "1"])
        = (okStatus, [.fentry i, .fentry j, .acted k, .fexit j, .fexit i], ⟨[]⟩)
    ∧ (match ((c4App i j k).route 5 ⟨[]⟩ ["a", "b", "-x", "1"]).2 with
        | .ok (_, ctx) => ctx.cmdPath = ["prog", "a", "b"] ∧ ctx.args = ["a", "b", "-x", "1"]
        | .error _ => False)
    ∧ (∀ (ids : List Nat) (act : Nat) (c : Ctx),
        wrapFilters (ids.map mkTraceFilter) (mkTraceAction act) c
          = .ok ((ids.map Event.fentry) ++ Event.acted act :: (ids.reverse.map Event.fexit))) :=
  ⟨rfl, ⟨rfl, rfl⟩, fun ids act c => wrap_trace c act ids⟩

/-- C5: when the next bare token matches no child command and no action is
reached, `Exec` returns a `StatusNotFound`-coded status when no not-found
handler is configured, and with one configured it invokes that handler and
returns a zero-code (success) status. -/
theorem C5_theorem (name0 : String) (subs : List (String × Command)) (tok : String)
    (rest : List String) (idn : Nat)
    (hpos : 0 < tok.length) (hfl : tok.toList.head? ≠ some '-')
    (hlk : subs.lookup tok = none) :
    (((c5App name0 subs none).Exec 1 ⟨[]⟩ (tok :: rest)).1.code = StatusNotFound)
    ∧ ((c5App name0 subs (some (mkTraceAction idn))).Exec 1 ⟨[]⟩ (tok :: rest))
        = (okStatus, [.acted idn], ⟨[]⟩) := by
  have hne : tok ≠ "" := by
    intro h
    rw [h] at hpos
    simp at hpos
  have hfl' : tok.data.head? ≠ some '-' := hfl
  constructor
  · simp [App.Exec, App.route, Command.findFiltersAndAction, c5App, c5Root,
      Command.newFilters, Command.filters, Command.cmdName, newFiltersGo,
      Command.newAction, Command.action, Command.subs, SplitArgs,
      hpos, hfl, hfl', hlk, hne, StatusNotFound]
  · simp [App.Exec, App.route, Command.findFiltersAndAction, c5App, c5Root,
      Command.newFilters, Command.filters, Command.cmdName, newFiltersGo,
      Command.newAction, Command.action, Command.subs, SplitArgs,
      hpos, hfl, hfl', hlk, hne, mkTraceAction, okStatus, wrapFilters]

/-- C5 (witness): the statement at the unknown leaf token `b` with an empty
subcommand table. -/
theorem C5_witness :
    (((c5App "" [] none).Exec 1 ⟨[]⟩ ["b"]).1.code = StatusNotFound)
    ∧ ((c5App "" [] (some (mkTraceAction 7))).Exec 1 ⟨[]⟩ ["b"])
        = (okStatus, [.acted 7], ⟨[]⟩) :=
  C5_theorem "" [] "b" [] 7 (by decide) (by decide) rfl

/-- C6: a command reachable by successful registration calls never has both
an action and a subcommand, because `AddSubcommand` faults immediately when
an action is set and `SetAction` faults immediately when subcommands exist —
the violation is ruled out at registration time. -/
theorem C6_theorem :
    (∀ (ops : List RegOp) (c : CmdReg), applyRegOps newCommandReg ops = .ok c →
        ¬(c.hasAction = true ∧ c.subNames ≠ []))
    ∧ (∀ (c : CmdReg) (n : String), c.hasAction = true →
        applyRegOp c (.addSubcommand n) = .error "action has been set, no subcommand can be set")
    ∧ (∀ (c : CmdReg), c.subNames ≠ [] →
        applyRegOp c .setAction = .error "some subcommands have been set, no action can be set") := by
  refine ⟨?_, ?_, ?_⟩
  · intro ops c h hand
    exact hand.2 (applyRegOps_inv ops newCommandReg c
      (by intro h; simp [newCommandReg] at h) h hand.1)
  · intro c n h
    simp [applyRegOp, h]
  · intro c h
    simp [applyRegOp, h]

/-- C6 (witness): the statement at a command that registered one subcommand,
and the two immediate faults at concrete states. -/
theorem C6_witness :
    ¬((⟨false, ["x"], 0⟩ : CmdReg).hasAction = true ∧ (⟨false, ["x"], 0⟩ : CmdReg).subNames ≠ [])
    ∧ applyRegOp ⟨true, [], 0⟩ (.addSubcommand "y")
        = .error "action has been set, no subcommand can be set"
    ∧ applyRegOp ⟨false, ["x"], 0⟩ .setAction
        = .error "some subcommands have been set, no action can be set" :=
  ⟨C6_theorem.1 [.addSubcommand "x"] ⟨false, ["x"], 0⟩ rfl,
   C6_theorem.2.1 ⟨true, [], 0⟩ "y" rfl,
   C6_theorem.2.2 ⟨false, ["x"], 0⟩ (by simp)⟩

/-- C7: registering a positional entry faults exactly when the index is
negative or already registered, and otherwise succeeds and records the
entry in the formal table — the outcome is decided entirely at registration
time. -/
theorem C7_theorem (f : FlagSet) (v : String) (i : Int) (u : String) :
    match NonVar f v i u with
    | .error _ => i < 0 ∨ (f.nonFormal.lookup i).isSome = true
    | .ok f' =>
        ¬(i < 0 ∨ (f.nonFormal.lookup i).isSome = true)
        ∧ f'.nonFormal = (i, ⟨getNonFlagName i, u, v, v⟩) :: f.nonFormal
        ∧ f'.nonFormal.lookup i = some ⟨getNonFlagName i, u, v, v⟩ := by
  by_cases h0 : i < 0
  · simp only [NonVar, if_pos h0]
    exact Or.inl h0
  · cases hlk : f.nonFormal.lookup i with
    | some fl =>
      simp only [NonVar, if_neg h0, hlk]
      exact Or.inr rfl
    | none =>
      simp only [NonVar, if_neg h0, hlk]
      refine ⟨?_, ?_, ?_⟩
      · rintro (h | h)
        · exact h0 h
        · simp at h
      · first
        | rfl
        | trivial
      · simp [List.lookup]

/-- C7 (witness): the statement at a fresh flag set with index 1. -/
theorem C7_witness :
    ¬((1 : Int) < 0 ∨ ((NewFlagSet "" ContinueOnError).nonFormal.lookup 1).isSome = true)
    ∧ ((1 : Int), (⟨getNonFlagName 1, "u", "d", "d"⟩ : NFlag)) :: (NewFlagSet "" ContinueOnError).nonFormal
        = ((1 : Int), (⟨getNonFlagName 1, "u", "d", "d"⟩ : NFlag)) :: (NewFlagSet "" ContinueOnError).nonFormal
    ∧ (((1 : Int), (⟨getNonFlagName 1, "u", "d", "d"⟩ : NFlag)) :: (NewFlagSet "" ContinueOnError).nonFormal).lookup (1 : Int)
        = some ⟨getNonFlagName 1, "u", "d", "d"⟩ := by
  have h := C7_theorem (NewFlagSet "" ContinueOnError) "d" 1 "u"
  exact ⟨h.1, h.2.1, h.2.2⟩

/-- C8: every fault is converted into the returned status at the top of
`Exec` and none escapes (the model's `Exec` is a total function into
statuses): a status thrown by a user handler is returned verbatim, a
parse-time fault comes back as a `StatusParseFailed`-coded status, and a
routing fault comes back as a `StatusNotFound`-coded status. -/
theorem C8_theorem (st : Status) :
    ((c8aApp st).Exec 2 ⟨[]⟩ ["x"]) = (st, [], ⟨[]⟩)
    ∧ ((c8bApp.Exec 2 ⟨[("p", "proto")] :: []⟩ ["-=x"]).1
        = ⟨StatusParseFailed, "", "bad flag syntax: -=x"⟩)
    ∧ (((App.mk "prog" (.mk "" [] none []) none none).Exec 2 ⟨[]⟩ ["zzz"]).1.code
        = StatusNotFound) :=
  ⟨rfl, rfl, rfl⟩

/-- C9: an `Exec` invocation binds parsed flag values only into freshly
allocated copies of the registered option structs: every option-struct cell
that existed in the store before the call — in particular every registered
prototype — is unchanged after it, whatever the app, arguments, fuel and
prior store, so successive invocations share no bound option state. -/
theorem C9_theorem (a : App) (fuel : Nat) (h : Heap) (args : List String) :
    ((a.Exec fuel h args).2.2).Grows h := by
  have g := findFA_grows a.notFound a.validator fuel h a.root [a.cmdName] args
  rcases hfa : Command.findFiltersAndAction a.notFound a.validator fuel h a.root [a.cmdName] args
    with ⟨h1, res⟩
  rw [hfa] at g
  simp only [App.Exec, App.route, hfa]
  cases res with
  | error st => exact g
  | ok q =>
    obtain ⟨filters, action, cmdPath, found⟩ := q
    dsimp only
    split <;> exact g

/-- C9 (witness): running the fresh-copy scenario app over a store holding
one prototype cell leaves that cell unchanged. -/
theorem C9_witness :
    ((c9App.Exec 5 ⟨[c9proto]⟩ ["-g", "v", "a"]).2.2).cells[0]? = some c9proto := by
  have hg := C9_theorem c9App 5 ⟨[c9proto]⟩ ["-g", "v", "a"]
  exact (hg.2 0 (by decide)).trans rfl

/-- C10: when resolution fails but a not-found handler is configured, the
handler runs bare: with tracing filters registered on the root and on the
traversed subcommand `a`, executing the unknown path `a c` emits only the
handler's own event — no filter entry/exit — because the resolution result
discards the collected filters (it returns an empty filter list and found =
false) and the wrapping loop runs only on successful resolution. -/
theorem C10_theorem (i j k n : Nat) :
    ((c10App i j k n).Exec 5 ⟨[]⟩ ["a", "c"]) = (okStatus, [.acted n], ⟨[]⟩)
    ∧ (match (Command.findFiltersAndAction (some (mkTraceAction n)) none 5 ⟨[]⟩
          (c10Root i j k) ["prog"] ["a", "c"]).2 with
        | .ok (fs, _, p, found) => fs = [] ∧ found = false ∧ p = ["prog", "a", "c"]
        | .error _ => False) :=
  ⟨rfl, ⟨rfl, rfl, rfl⟩⟩

end Flagx
